import Mathlib

/-!
Verification of the pyimc peer-discovery / pub-sub runtime and LSF log
reader against its specification.  The Python source is shallowly embedded:
pure functions become Lean functions, dict state becomes association lists,
Python exceptions become an `Except` channel, and wall-clock times and
message timestamps (Python floats) are modelled as integers (only subtraction and
order are used on them, so any ordered additive group is faithful).
-/

namespace PyImc

/-- A key in the node map: `(imc address, system name)`. -/
abbrev NodeKey := Nat × String

/-- One advertised `imc+udp` network access point of a node
(`IMCService` restricted to the fields `node.send` uses).
The IPv4 address is modelled as its 32-bit numeric value. -/
structure IMCService where
  ip : Nat
  port : Nat
  deriving DecidableEq, Repr

/-- Embedding of `pyimc.node.IMCNode`: the fields used by the node
bookkeeping in `IMCBase` (`base.py`) and by `IMCNode.send` (`node.py`).
`t_last_heartbeat`/`t_last_announce` are `None` until first observed. -/
structure IMCNode where
  src : Nat
  sys_name : String
  t_last_heartbeat : Option ℤ
  t_last_announce : Option ℤ
  is_fixed : Bool
  services : List (String × List IMCService)
  deriving DecidableEq, Repr

/-! ## C1: node pruning (`IMCBase._prune_nodes`, base.py lines 392-414) -/

/-- `has_heartbeat = type(node.t_last_heartbeat) is float and (t - node.t_last_heartbeat) < 60` -/
def has_heartbeat (t : ℤ) (node : IMCNode) : Bool :=
  match node.t_last_heartbeat with
  | some th => decide (t - th < 60)
  | none => false

/-- `has_announce = node.t_last_announce is not None and (t - node.t_last_announce) < 60` -/
def has_announce (t : ℤ) (node : IMCNode) : Bool :=
  match node.t_last_announce with
  | some ta => decide (t - ta < 60)
  | none => false

/-- The removal condition of the pruning loop:
`if not (has_heartbeat or has_announce) and not node.is_fixed: rm_keys.append(key)` -/
def prune_removes (t : ℤ) (node : IMCNode) : Bool :=
  !(has_heartbeat t node || has_announce t node) && !node.is_fixed

/-- `IMCBase._prune_nodes` seen as a map transformer: every key collected in
`rm_keys` is deleted from the node map (the dict is modelled as an
association list; dict keys are unique, so deletion by key is a filter). -/
def prune_nodes (t : ℤ) (nodes : List (NodeKey × IMCNode)) : List (NodeKey × IMCNode) :=
  nodes.filter (fun kv => !prune_removes t kv.2)

/-- The claim's staleness predicate, following the spec's words: a liveness
signal is stale when it was never observed or is older than 60 seconds
(strictly more than 60 seconds in the past). -/
def claim_stale (t : ℤ) (sig : Option ℤ) : Bool :=
  match sig with
  | none => true
  | some s => decide (60 < t - s)

/-- The claim's removal predicate: not fixed and both signals stale/absent. -/
def claim_removed (t : ℤ) (node : IMCNode) : Bool :=
  !node.is_fixed && claim_stale t node.t_last_heartbeat && claim_stale t node.t_last_announce

/-- The amended staleness predicate matching the code: never observed, or at
least 60 seconds old. -/
def stale60 (t : ℤ) (sig : Option ℤ) : Bool :=
  match sig with
  | none => true
  | some s => decide (60 ≤ t - s)

/-- Concrete node for the C1 boundary counterexample: last heartbeat exactly
60 seconds ago, never announced, not fixed. -/
def node_hb60 : IMCNode :=
  { src := 1, sys_name := "lauv", t_last_heartbeat := some 0, t_last_announce := none,
    is_fixed := false, services := [] }

/-! ## C2: handler registration and dispatch order
(`IMCBase._setup_event_loop`, base.py lines 362-390, and
`IMCBase.post_message`, base.py lines 190-221)

Message types are modelled by their numeric ids, with a designated id for
the wildcard base class `pyimc.Message`. -/

/-- The wildcard message type (`pyimc.Message` itself). -/
def wildcardType : Nat := 0

/-- A bound method of the actor, as enumerated by `inspect.getmembers`:
its attribute name, the class that declares it (the first component of
`__qualname__`), and the flattened list of message-type subscriptions
declared by its `@Subscribe` decorators. -/
structure Method where
  attrName : String
  declClass : String
  subs : List Nat
  deriving DecidableEq, Repr

/-- `fn.__qualname__`. -/
def qualname (m : Method) : String := m.declClass ++ "." ++ m.attrName

/-- The per-type handler list built by `_setup_event_loop` before sorting:
for every decorated method (in `getmembers` order) and every subscribed
type occurrence equal to `t`, the method is appended to `_subs[t]`. -/
def collect_subs (methods : List Method) (t : Nat) : List Method :=
  methods.flatMap (fun m => (m.subs.filter (fun s => decide (s = t))).map (fun _ => m))

/-- The sort key of
`methods.sort(key=lambda x: -cls_hier.index(x.__qualname__.split('.')[0]))`,
where `hier` is `[x.__qualname__ for x in inspect.getmro(type(self))]`
(most derived class first). -/
def cls_hier_key (hier : List String) (m : Method) : Int :=
  -(List.indexOf m.declClass hier : Int)

/-- The sorting relation used for the handler lists (ascending key). -/
def keyLe (hier : List String) (a b : Method) : Prop :=
  cls_hier_key hier a ≤ cls_hier_key hier b

instance (hier : List String) : DecidableRel (keyLe hier) :=
  fun a b => inferInstanceAs (Decidable (cls_hier_key hier a ≤ cls_hier_key hier b))

instance (hier : List String) : IsTotal Method (keyLe hier) :=
  ⟨fun a b => Int.le_total (cls_hier_key hier a) (cls_hier_key hier b)⟩

instance (hier : List String) : IsTrans Method (keyLe hier) :=
  ⟨fun _ _ _ hab hbc => le_trans hab hbc⟩

/-- The handler table after `_setup_event_loop`: the collected per-type list,
stably sorted ascending by the class-hierarchy key (Python's `list.sort` is a
stable ascending sort, which for a key-based comparison is extensionally
insertion sort). -/
def sort_subs (hier : List String) (methods : List Method) (t : Nat) : List Method :=
  List.insertionSort (keyLe hier) (collect_subs methods t)

/-- The invocation sequence of `post_message` for a message of concrete type
`msgT`: the handlers of `_subs[msgT]` (only when the type is a proper
subclass of `pyimc.Message`, i.e. not the wildcard itself), then the
handlers of `_subs[pyimc.Message]`.  A missing dict key is the empty list. -/
def post_message_order (subs : Nat → List Method) (msgT : Nat) : List Method :=
  (if msgT = wildcardType then [] else subs msgT) ++ subs wildcardType

/-! ## C3: per-handler fault isolation (`IMCBase.post_message`,
base.py lines 190-221, and `IMCBase.on_exception`, lines 330-335)

A handler invocation either returns or raises; the raised Python exception
is modelled as an opaque value. -/

/-- A Python exception value. -/
structure Exc where
  msg : String
  deriving DecidableEq, Repr

/-- Observable events of a dispatch: a handler invocation, or a call of the
fault hook `self.on_exception(loc=fn.__qualname__, exc=e)`. -/
inductive DispatchEvent where
  | invoke (m : Method)
  | fault (loc : String) (e : Exc)
  deriving DecidableEq, Repr

/-- One iteration of the dispatch loop:
`try: fn(msg) except Exception as e: self.on_exception(loc=fn.__qualname__, exc=e)`.
The `except Exception` clause converts an exceptional outcome of the handler
into a fault-hook call, so the iteration itself never raises. -/
def handler_body (run : Method → Except Exc Unit) (m : Method) :
    Except Exc (List DispatchEvent) :=
  match run m with
  | Except.ok _ => Except.ok [DispatchEvent.invoke m]
  | Except.error e => Except.ok [DispatchEvent.invoke m, DispatchEvent.fault (qualname m) e]

/-- A Python `for` loop over statements that may raise: an exception escaping
an iteration aborts the remaining iterations and propagates. -/
def py_for {α : Type} (body : α → Except Exc (List DispatchEvent)) :
    List α → Except Exc (List DispatchEvent)
  | [] => Except.ok []
  | x :: xs =>
    match body x with
    | Except.error e => Except.error e
    | Except.ok evs =>
      match py_for body xs with
      | Except.error e => Except.error e
      | Except.ok evs2 => Except.ok (evs ++ evs2)

/-- `post_message` as an event trace: the dispatch loop over the handler
sequence of the message's type, with each invocation outcome given by
`run`. -/
def post_message_exec (run : Method → Except Exc Unit) (subs : Nat → List Method)
    (msgT : Nat) : Except Exc (List DispatchEvent) :=
  py_for (handler_body run) (post_message_order subs msgT)

/-! ## C4: index load validation (`LSFReader.read_index`, lsf.py lines 166-181)

The pickled side file holds the dict built by `generate_index`: integer
message ids mapped to offset lists, plus the string key `'timestamp'`
mapped to the first record's timestamp. -/

/-- A Python runtime error relevant to the embedded code paths. -/
inductive PyErr where
  | keyError (k : String)
  | nameError (n : String)
  deriving DecidableEq, Repr

/-- The loaded index dict: the `'timestamp'` entry (if present) and the
integer-keyed offset lists. -/
structure LoadedIdx where
  tsKey : Option ℤ
  entries : List (Nat × List Nat)
  deriving DecidableEq, Repr

/-- `self.idx['timestamp']` — raises `KeyError` when the key is absent. -/
def dict_get_ts (idx : LoadedIdx) : Except PyErr ℤ :=
  match idx.tsKey with
  | some t => Except.ok t
  | none => Except.error (PyErr.keyError "timestamp")

/-- `del self.idx['timestamp']` — raises `KeyError` when the key is absent. -/
def dict_del_ts (idx : LoadedIdx) : Except PyErr LoadedIdx :=
  match idx.tsKey with
  | some _ => Except.ok { idx with tsKey := none }
  | none => Except.error (PyErr.keyError "timestamp")

/-- `self.idx = {}`. -/
def empty_idx : LoadedIdx := { tsKey := none, entries := [] }

/-- `LSFReader.read_index`, statement by statement.  `loaded` is the
unpickled dict, `header_ts` the timestamp of the first record currently in
the log file (read by `peek_header`). -/
def read_index (loaded : LoadedIdx) (header_ts : ℤ) : Except PyErr LoadedIdx := do
  let ts ← dict_get_ts loaded
  let idx := if header_ts ≠ ts then empty_idx else loaded
  dict_del_ts idx

/-! ## C5: periodic task scheduling (`Periodic.add_event`,
decorators.py lines 44-64) -/

/-- The sleep the coroutine performs after an invocation that took `dur`
seconds: `yield from asyncio.sleep(self.time)` — the full configured
interval, independent of `dur`. -/
def periodic_sleep (time : ℤ) (_dur : ℤ) : ℤ := time

/-- Start time of the n-th invocation of the periodic body (registration at
time 0): `while True: fn(); yield from asyncio.sleep(self.time)`. -/
def periodic_start (time : ℤ) (dur : Nat → ℤ) : Nat → ℤ
  | 0 => 0
  | n + 1 => periodic_start time dur n + dur n + periodic_sleep time (dur n)

/-- Modelled from the spec: the claim's sleep formula
`interval - (now - invocationStart)`, clamped to at least zero, where
`dur = now - invocationStart` is the duration of the invocation just
finished.  Stated only for comparison with `periodic_sleep`. -/
def claim_periodic_sleep (interval : ℤ) (dur : ℤ) : ℤ := max 0 (interval - dur)

/-! ## C6: node resolution (`IMCBase.resolve_node_id`, base.py lines 223-262,
and `AmbiguousKeyError`, exception.py lines 3-6) -/

/-- The node map `self._nodes` (a dict keyed by `(imc address, sys_name)`). -/
abbrev NodeMap := List (NodeKey × IMCNode)

/-- The identifier forms accepted by `resolve_node_id`: integer imc address,
system-name string, `(address, name)` tuple, or a received message (resolved
through its `src` field; the `IMCNode` form likewise recurses on the full
key, so it is covered by `byKey`). -/
inductive NodeId where
  | byAddr (a : Nat)
  | byName (s : String)
  | byKey (k : NodeKey)
  | byMsg (src : Nat)
  deriving DecidableEq, Repr

/-- The outcome of `resolve_node_id`: a unique node, `KeyError`, or
`AmbiguousKeyError` carrying `choices=possible_nodes`. -/
inductive Resolved where
  | ok (n : IMCNode)
  | keyError
  | ambiguous (choices : List NodeKey)
  deriving DecidableEq, Repr

/-- The partial-key branch of `resolve_node_id` (ids of type `int` or `str`):
`possible_nodes = [x for x in self._nodes.keys() if x[idx] == node_id]`,
then `KeyError` on no match, `AmbiguousKeyError(choices=possible_nodes)` on
more than one, else return `self._nodes[possible_nodes[0]]`. -/
def resolve_half_key (nodes : NodeMap) (keyMatches : NodeKey → Bool) : Resolved :=
  match (nodes.map Prod.fst).filter keyMatches with
  | [] => Resolved.keyError
  | [k] =>
    match nodes.lookup k with
    | some n => Resolved.ok n
    | none => Resolved.keyError
  | k1 :: k2 :: ks => Resolved.ambiguous (k1 :: k2 :: ks)

/-- `IMCBase.resolve_node_id`.  The `byMsg` form is the source's recursive
call `self.resolve_node_id(node_id.src)`, inlined as the integer branch. -/
def resolve_node_id (nodes : NodeMap) : NodeId → Resolved
  | NodeId.byAddr a => resolve_half_key nodes (fun k => decide (k.1 = a))
  | NodeId.byName s => resolve_half_key nodes (fun k => decide (k.2 = s))
  | NodeId.byKey k =>
    match nodes.lookup k with
    | some n => Resolved.ok n
    | none => Resolved.keyError
  | NodeId.byMsg src => resolve_half_key nodes (fun k => decide (k.1 = src))

/-- The keys of the node map matching an identifier (the claim's "candidate
set"). -/
def candidates (nodes : NodeMap) : NodeId → List NodeKey
  | NodeId.byAddr a => (nodes.map Prod.fst).filter (fun k => decide (k.1 = a))
  | NodeId.byName s => (nodes.map Prod.fst).filter (fun k => decide (k.2 = s))
  | NodeId.byKey k => (nodes.map Prod.fst).filter (fun j => decide (j = k))
  | NodeId.byMsg src => (nodes.map Prod.fst).filter (fun k => decide (k.1 = src))

/-- Identifier forms that are partial keys (address-only or name-only). -/
def is_partial_key : NodeId → Bool
  | NodeId.byKey _ => false
  | _ => true

/-! ## C7: outbound routing (`IMCNode.send`, node.py lines 136-168) -/

/-- A local interface subnet, as computed by
`ip.ip_interface(addr + '/' + netmask).network` over `get_interfaces()`:
the network address and the number of leading mask bits. -/
structure Subnet where
  net : Nat
  maskBits : Nat
  deriving DecidableEq, Repr

/-- `svc_ip in network` for an IPv4 network: the two addresses agree on the
`maskBits` leading bits. -/
def in_network (a : Nat) (nw : Subnet) : Bool :=
  decide (a / 2 ^ (32 - nw.maskBits) = nw.net / 2 ^ (32 - nw.maskBits))

/-- A UDP datagram handed to `IMCSenderUDP(ip).send(message=msg, port=port)`. -/
inductive SendAction where
  | sendTo (ip : Nat) (port : Nat)
  deriving DecidableEq, Repr

/-- The observable outcome of `IMCNode.send`: either the `KeyError` branch
(`no imc+udp service`: an error is logged exactly when the node is not
fixed, then the method returns) or the datagrams sent. -/
inductive SendResult where
  | noService (loggedError : Bool)
  | sent (acts : List SendAction)
  deriving DecidableEq, Repr

/-- `127.0.0.1`. -/
def loopback_ip : Nat := 0x7F000001

/-- `IMCNode.send`, with the local interface networks passed in.  The result
is wrapped in `Except` so that raising an exception to the caller is
expressible; the source returns normally on every path. -/
def node_send (services : List (String × List IMCService)) (is_fixed : Bool)
    (networks : List Subnet) : Except PyErr SendResult :=
  match services.lookup "imc+udp" with
  | none => Except.ok (SendResult.noService (!is_fixed))
  | some svcs =>
    match svcs.find? (fun svc => networks.any (fun nw => in_network svc.ip nw)) with
    | some svc => Except.ok (SendResult.sent [SendAction.sendTo svc.ip svc.port])
    | none => Except.ok (SendResult.sent (svcs.map (fun svc => SendAction.sendTo loopback_ip svc.port)))

/-! ## C8: unindexed filtered read (`LSFReader.read_message`,
lsf.py lines 211-250)

A well-formed LSF file is a sequence of records; each record carries the
header fields the reader looks at (`sync`, `mgid`, `size`, `timestamp`).
The reader is modelled at record granularity: every loop iteration reads
the next header, and either decodes the record (`yielded`) or seeks past
its payload and footer without decoding (`skipped`). -/

/-- The record header fields read by the LSF reader. -/
structure Record where
  sync : Nat
  mgid : Nat
  size : Nat
  timestamp : ℤ
  deriving DecidableEq, Repr

/-- `pyimc.constants.SYNC` (the IMC synchronization number). -/
def SYNC : Nat := 0xFE54

/-- Events of the unindexed forward scan. -/
inductive ReadEvent where
  | yielded (r : Record)
  | skipped (r : Record)
  deriving DecidableEq, Repr

/-- The unindexed branch of `LSFReader.read_message`: a single forward scan;
each iteration peeks the header; an invalid sync number stops parsing; the
record is deserialized and yielded only when there is no filter or its
`mgid` is in the requested set, and skipped (seek past payload and footer)
otherwise. -/
def read_message_noindex (msg_types : Option (List Nat)) : List Record → List ReadEvent
  | [] => []
  | r :: rs =>
    if r.sync ≠ SYNC then []
    else
      match msg_types with
      | none => ReadEvent.yielded r :: read_message_noindex none rs
      | some ts =>
        if r.mgid ∈ ts then ReadEvent.yielded r :: read_message_noindex (some ts) rs
        else ReadEvent.skipped r :: read_message_noindex (some ts) rs

/-- The record a read event yielded, if it decoded one. -/
def yielded_record : ReadEvent → Option Record
  | ReadEvent.yielded r => some r
  | ReadEvent.skipped _ => none

/-- The record whose header a read event consumed. -/
def event_record : ReadEvent → Record
  | ReadEvent.yielded r => r
  | ReadEvent.skipped r => r

/-! ## C9: merging truncated gzip logs (`merge`, lsf.py lines 446-488) -/

/-- Python name lookup: evaluating the expression `x` raises `NameError`
unless `x` is a bound name of the enclosing scope. -/
def py_name_lookup (env : List String) (x : String) : Except PyErr Unit :=
  if x ∈ env then Except.ok () else Except.error (PyErr.nameError x)

/-- Names bound in the scope of `merge` when the `except EOFError:` clause
for a `.lsf.gz` input runs (the loop variables and the locals of the `try`
block; no `as`-binding names the caught exception). -/
def merge_env : List String :=
  ["lsf_dir", "lsf_out", "msgs", "root", "fnames", "fname", "f_msgs", "f", "data", "msg"]

/-- A gzip-compressed `.lsf.gz` merge input: either the whole stream
decompresses (`gzip.decompress` succeeds), or it ends unexpectedly
(`EOFError`), in which case incremental decompression can still recover the
records before the truncation point. -/
inductive GzStream where
  | intact (recs : List Record)
  | truncated (recovered : List Record)
  deriving DecidableEq, Repr

/-- The per-file `.lsf.gz` handling inside `merge`: the `try` block reads the
fully decompressed stream; on `EOFError` the `except` clause first evaluates
`logger.warning(e)` — where `e` is not a bound name — and only then would
fall back to decompressing gradually and keeping the recovered records. -/
def merge_read_gz (g : GzStream) : Except PyErr (List Record) :=
  match g with
  | GzStream.intact recs => Except.ok recs
  | GzStream.truncated recovered => do
    let _ ← py_name_lookup merge_env "e"
    Except.ok recovered

/-- Concrete record used in counterexamples and witnesses. -/
def rec_a : Record := { sync := SYNC, mgid := 5, size := 10, timestamp := 100 }

/-- A second concrete record with a different type id. -/
def rec_b : Record := { sync := SYNC, mgid := 7, size := 3, timestamp := 101 }

/-! ## C10: index construction and merged offset iteration
(`LSFReader.generate_index`, lsf.py lines 125-151, and
`LSFReader.sorted_idx_iter`, lines 197-209) -/

/-- `ctypes.sizeof(IMCHeader)`: u16+u16+u16+f64+u16+u8+u16+u8, packed. -/
def header_size : Nat := 20

/-- `ctypes.sizeof(IMCFooter)`: the crc16. -/
def footer_size : Nat := 2

/-- The file span of a record: header, `size` payload bytes, footer. -/
def record_len (r : Record) : Nat := header_size + r.size + footer_size

/-- The per-type offset lists built by `generate_index`, as a function from
message id to its offset list: the scan starts at offset `pos`, appends the
current offset to `idx[mgid]`, and seeks `record_len` forward. -/
def generate_index : List Record → Nat → Nat → List Nat
  | [], _, _ => []
  | r :: rs, pos, m =>
    (if r.mgid = m then [pos] else []) ++ generate_index rs (pos + record_len r) m

/-- `heapq.merge` of the requested per-type offset lists
(`sorted_idx_iter`): `idx_iters = [self.idx[key] for key in types if key in
self.idx]`, then a k-way ascending merge, realized as a fold of two-way
merges. -/
def sorted_idx_iter (idx : Nat → List Nat) (types : List Nat) : List Nat :=
  ((types.filter (fun k => !(idx k).isEmpty)).map idx).foldr
    (fun l acc => List.merge l acc (fun a b => decide (a ≤ b))) []

/-! # Theorems -/

/-! ## C1 -/

/-- The liveness test of the pruning loop is the negation of the
at-least-60-seconds staleness test. -/
theorem has_heartbeat_eq_not_stale (t : ℤ) (node : IMCNode) :
    has_heartbeat t node = !stale60 t node.t_last_heartbeat := by
  unfold has_heartbeat stale60
  cases node.t_last_heartbeat with
  | none => rfl
  | some s => rw [← decide_not]; exact decide_eq_decide.mpr lt_iff_not_le

/-- Announce counterpart of `has_heartbeat_eq_not_stale`. -/
theorem has_announce_eq_not_stale (t : ℤ) (node : IMCNode) :
    has_announce t node = !stale60 t node.t_last_announce := by
  unfold has_announce stale60
  cases node.t_last_announce with
  | none => rfl
  | some s => rw [← decide_not]; exact decide_eq_decide.mpr lt_iff_not_le

/-- The pruning loop's removal condition, as a proposition. -/
theorem prune_removes_iff (t : ℤ) (node : IMCNode) :
    prune_removes t node = true ↔
      node.is_fixed = false ∧ stale60 t node.t_last_heartbeat = true ∧
        stale60 t node.t_last_announce = true := by
  simp [prune_removes, has_heartbeat_eq_not_stale, has_announce_eq_not_stale,
    Bool.and_eq_true, Bool.not_eq_true']
  tauto

/-- C1, counterexample to the claim as stated.  At `t = 60` the node
`node_hb60` (last heartbeat at time 0, never announced, not fixed) has no
signal "older than 60 seconds" — its heartbeat is exactly 60 seconds old —
so the claim keeps it; `_prune_nodes` removes it, because the code's
freshness test is `t - t_last_heartbeat < 60`. -/
theorem prune_boundary_counterexample :
    claim_removed 60 node_hb60 = false ∧
      prune_nodes 60 [((1, "lauv"), node_hb60)] = [] := by
  decide

/-- C1 (amended): when the pruning task runs at time `t`, an entry of the
node map survives exactly when it was there and it is not the case that the
node is non-fixed with both liveness signals stale, where a signal is stale
when it was never observed or is at least 60 seconds old.  In particular a
node with either signal strictly younger than 60 seconds is kept, and a
fixed node is never removed. -/
theorem prune_nodes_removes_iff (t : ℤ) (nodes : List (NodeKey × IMCNode))
    (kv : NodeKey × IMCNode) :
    kv ∈ prune_nodes t nodes ↔
      kv ∈ nodes ∧ ¬(kv.2.is_fixed = false ∧ stale60 t kv.2.t_last_heartbeat = true ∧
        stale60 t kv.2.t_last_announce = true) := by
  rw [prune_nodes, List.mem_filter, Bool.not_eq_true', ← Bool.not_eq_true,
    prune_removes_iff]

/-- Witness for `prune_nodes_removes_iff` at a concrete map and time. -/
theorem prune_nodes_removes_iff_witness :
    ((1, "lauv"), node_hb60) ∈ prune_nodes 30 [((1, "lauv"), node_hb60)] ↔
      ((1, "lauv"), node_hb60) ∈ [((1, "lauv"), node_hb60)] ∧
        ¬(node_hb60.is_fixed = false ∧ stale60 30 node_hb60.t_last_heartbeat = true ∧
          stale60 30 node_hb60.t_last_announce = true) :=
  prune_nodes_removes_iff 30 [((1, "lauv"), node_hb60)] ((1, "lauv"), node_hb60)

/-! ## C4 -/

/-- C4: the sentinel check of `read_index` does not fail silently.  On a
sentinel mismatch the method first replaces the index with the empty dict
and then executes `del self.idx['timestamp']`, which raises `KeyError` to
the caller (`__enter__`); only the matching path accepts the index (with
the sentinel entry removed). -/
theorem read_index_mismatch_raises :
    read_index { tsKey := some 1, entries := [(5, [20, 52])] } 2
        = Except.error (PyErr.keyError "timestamp")
    ∧ read_index { tsKey := some 1, entries := [(5, [20, 52])] } 1
        = Except.ok { tsKey := none, entries := [(5, [20, 52])] } :=
  ⟨rfl, rfl⟩

/-! ## C5 -/

/-- C5, counterexample to the claim as stated: after an invocation that took
4 seconds with a 10-second interval, the claim's drift-corrected formula
sleeps 6 seconds, while the coroutine of `Periodic.add_event` sleeps the
full 10 seconds. -/
theorem periodic_sleep_not_drift_corrected :
    periodic_sleep 10 4 = 10 ∧ claim_periodic_sleep 10 4 = 6 ∧
      periodic_sleep 10 4 ≠ claim_periodic_sleep 10 4 := by
  decide

/-- C5 (amended): the periodic coroutine invokes the task immediately when
it first runs, and thereafter sleeps the full configured interval after each
invocation, independent of the invocation's duration: the `n`-th invocation
starts at the sum of the first `n` durations plus `n` times the interval
(so drift from slow invocations accumulates instead of being corrected). -/
theorem periodic_start_closed_form (time : ℤ) (dur : Nat → ℤ) (n : Nat) :
    periodic_start time dur 0 = 0 ∧
      periodic_start time dur n = ((List.range n).map dur).sum + n * time := by
  refine ⟨rfl, ?_⟩
  induction n with
  | zero => simp [periodic_start]
  | succ k ih =>
    rw [periodic_start, ih, List.range_succ]
    simp [periodic_sleep]
    ring

/-- Witness for `periodic_start_closed_form`: two 4-second invocations with
a 10-second interval start at times 0 and 14. -/
theorem periodic_start_closed_form_witness :
    periodic_start 10 (fun _ => 4) 0 = 0 ∧
      periodic_start 10 (fun _ => 4) 2 = ((List.range 2).map (fun _ => 4)).sum + 2 * 10 :=
  periodic_start_closed_form 10 (fun _ => 4) 2

/-! ## C2 -/

/-- C2: for a delivered message of a concrete (non-wildcard) type, a handler
`H1` declared on an ancestor actor class (a class further down the MRO list
`hier`) runs strictly before a handler `H2` declared on a more derived
class, wherever the two appear in the sorted handler list of that type; and
the full invocation sequence is the type's handlers followed by the
wildcard (`pyimc.Message`) handlers. -/
theorem dispatch_order_base_before_derived (hier : List String) (methods : List Method)
    (msgT : Nat) (H1 H2 : Method)
    (hW : msgT ≠ wildcardType) (hne : H1 ≠ H2)
    (hanc : List.indexOf H2.declClass hier < List.indexOf H1.declClass hier) :
    (∀ i j : Fin (sort_subs hier methods msgT).length,
        (sort_subs hier methods msgT).get i = H1 →
        (sort_subs hier methods msgT).get j = H2 → i < j)
    ∧ post_message_order (sort_subs hier methods) msgT
        = sort_subs hier methods msgT ++ sort_subs hier methods wildcardType := by
  constructor
  · intro i j hi hj
    have hsorted : List.Sorted (keyLe hier) (sort_subs hier methods msgT) :=
      List.sorted_insertionSort (keyLe hier) (collect_subs methods msgT)
    by_contra hij
    push_neg at hij
    rcases eq_or_lt_of_le hij with heq | hlt
    · exact hne (hi.symm.trans (heq ▸ hj))
    · have hrel := hsorted.rel_get_of_lt hlt
      rw [hi, hj] at hrel
      unfold keyLe cls_hier_key at hrel
      omega
  · simp [post_message_order, hW]

/-- Witness for `dispatch_order_base_before_derived`: an actor of class `D`
deriving from `B`, each declaring one handler subscribed to type 1. -/
theorem dispatch_order_base_before_derived_witness :
    (∀ i j : Fin (sort_subs ["D", "B", "object"]
        [⟨"h_derived", "D", [1]⟩, ⟨"h_base", "B", [1]⟩] 1).length,
        (sort_subs ["D", "B", "object"]
          [⟨"h_derived", "D", [1]⟩, ⟨"h_base", "B", [1]⟩] 1).get i = ⟨"h_base", "B", [1]⟩ →
        (sort_subs ["D", "B", "object"]
          [⟨"h_derived", "D", [1]⟩, ⟨"h_base", "B", [1]⟩] 1).get j = ⟨"h_derived", "D", [1]⟩ →
        i < j)
    ∧ post_message_order (sort_subs ["D", "B", "object"]
          [⟨"h_derived", "D", [1]⟩, ⟨"h_base", "B", [1]⟩]) 1
        = sort_subs ["D", "B", "object"]
            [⟨"h_derived", "D", [1]⟩, ⟨"h_base", "B", [1]⟩] 1
          ++ sort_subs ["D", "B", "object"]
              [⟨"h_derived", "D", [1]⟩, ⟨"h_base", "B", [1]⟩] wildcardType :=
  dispatch_order_base_before_derived ["D", "B", "object"]
    [⟨"h_derived", "D", [1]⟩, ⟨"h_base", "B", [1]⟩] 1
    ⟨"h_base", "B", [1]⟩ ⟨"h_derived", "D", [1]⟩
    (by decide) (by decide) (by decide)

/-! ## C3 -/

/-- C3: the dispatch of a message always completes without propagating any
handler exception, every handler in the invocation sequence is invoked, and
every handler that raises has its exception reported to the fault hook
together with its qualified name — so a raising handler never prevents the
remaining handlers from running. -/
theorem post_message_fault_isolation (run : Method → Except Exc Unit)
    (subs : Nat → List Method) (msgT : Nat) :
    ∃ evs, post_message_exec run subs msgT = Except.ok evs
      ∧ (∀ m ∈ post_message_order subs msgT, DispatchEvent.invoke m ∈ evs)
      ∧ (∀ m ∈ post_message_order subs msgT, ∀ e, run m = Except.error e →
          DispatchEvent.fault (qualname m) e ∈ evs) := by
  have key : ∀ ms : List Method, ∃ evs,
      py_for (handler_body run) ms = Except.ok evs
      ∧ (∀ m ∈ ms, DispatchEvent.invoke m ∈ evs)
      ∧ (∀ m ∈ ms, ∀ e, run m = Except.error e →
          DispatchEvent.fault (qualname m) e ∈ evs) := by
    intro ms
    induction ms with
    | nil => exact ⟨[], rfl, by simp, by simp⟩
    | cons m rest ih =>
      obtain ⟨evs, hok, hinv, hflt⟩ := ih
      cases hrun : run m with
      | ok u =>
        refine ⟨DispatchEvent.invoke m :: evs, ?_, ?_, ?_⟩
        · simp [py_for, handler_body, hrun, hok]
        · intro x hx
          rcases List.mem_cons.mp hx with rfl | hx
          · exact List.mem_cons_self _ _
          · exact List.mem_cons_of_mem _ (hinv x hx)
        · intro x hx e he
          rcases List.mem_cons.mp hx with rfl | hx
          · rw [hrun] at he; cases he
          · exact List.mem_cons_of_mem _ (hflt x hx e he)
      | error e0 =>
        refine ⟨DispatchEvent.invoke m :: DispatchEvent.fault (qualname m) e0 :: evs,
          ?_, ?_, ?_⟩
        · simp [py_for, handler_body, hrun, hok]
        · intro x hx
          rcases List.mem_cons.mp hx with rfl | hx
          · exact List.mem_cons_self _ _
          · exact List.mem_cons_of_mem _ (List.mem_cons_of_mem _ (hinv x hx))
        · intro x hx e he
          rcases List.mem_cons.mp hx with rfl | hx
          · rw [hrun] at he
            injection he with h
            subst h
            exact List.mem_cons_of_mem _ (List.mem_cons_self _ _)
          · exact List.mem_cons_of_mem _ (List.mem_cons_of_mem _ (hflt x hx e he))
  exact key (post_message_order subs msgT)

/-- Witness for `post_message_fault_isolation`: one raising and one normal
handler subscribed to type 1. -/
theorem post_message_fault_isolation_witness :
    ∃ evs, post_message_exec
        (fun m => if m.attrName = "h_bad" then Except.error ⟨"boom"⟩ else Except.ok ())
        (fun t => if t = 1 then [⟨"h_bad", "B", [1]⟩, ⟨"h_ok", "B", [1]⟩] else [])
        1 = Except.ok evs
      ∧ (∀ m ∈ post_message_order
            (fun t => if t = 1 then [⟨"h_bad", "B", [1]⟩, ⟨"h_ok", "B", [1]⟩] else []) 1,
          DispatchEvent.invoke m ∈ evs)
      ∧ (∀ m ∈ post_message_order
            (fun t => if t = 1 then [⟨"h_bad", "B", [1]⟩, ⟨"h_ok", "B", [1]⟩] else []) 1,
          ∀ e, (fun m => if m.attrName = "h_bad" then Except.error ⟨"boom"⟩ else Except.ok ()) m
              = Except.error e →
            DispatchEvent.fault (qualname m) e ∈ evs) :=
  post_message_fault_isolation
    (fun m => if m.attrName = "h_bad" then Except.error ⟨"boom"⟩ else Except.ok ())
    (fun t => if t = 1 then [⟨"h_bad", "B", [1]⟩, ⟨"h_ok", "B", [1]⟩] else [])
    1

/-! ## C6 -/

/-- A key outside the key list of an association list has no binding. -/
theorem lookup_eq_none_of_not_mem_keys (nodes : NodeMap) (k : NodeKey)
    (h : k ∉ nodes.map Prod.fst) : nodes.lookup k = none := by
  induction nodes with
  | nil => rfl
  | cons kv rest ih =>
    simp only [List.map_cons, List.mem_cons, not_or] at h
    have hne : (k == kv.1) = false := beq_false_of_ne h.1
    cases kv with
    | mk a nv => simpa [List.lookup, hne] using ih h.2

/-- If exactly one key of the map satisfies a predicate, looking that key up
succeeds. -/
theorem lookup_isSome_of_filter_single (nodes : NodeMap) (p : NodeKey → Bool)
    (k : NodeKey) (h : (nodes.map Prod.fst).filter p = [k]) :
    ∃ n, nodes.lookup k = some n := by
  induction nodes with
  | nil => simp at h
  | cons kv rest ih =>
    by_cases hk : k = kv.1
    · exact ⟨kv.2, by cases kv with | mk a nv => simp [List.lookup, hk]⟩
    · have hne : (k == kv.1) = false := beq_false_of_ne hk
      have hrest : (rest.map Prod.fst).filter p = [k] := by
        rcases hp : p kv.1 with _ | _
        · simpa [List.filter, hp] using h
        · rw [List.map_cons, List.filter_cons_of_pos hp] at h
          exact absurd (List.head_eq_of_cons_eq h) (Ne.symm hk)
      obtain ⟨n, hn⟩ := ih hrest
      exact ⟨n, by cases kv with | mk a nv => simpa [List.lookup, hne] using hn⟩

/-- The no-match branch of the partial-key resolution. -/
theorem resolve_half_key_nil (nodes : NodeMap) (p : NodeKey → Bool)
    (h : (nodes.map Prod.fst).filter p = []) :
    resolve_half_key nodes p = Resolved.keyError := by
  simp [resolve_half_key, h]

/-- The unique-match branch of the partial-key resolution. -/
theorem resolve_half_key_single (nodes : NodeMap) (p : NodeKey → Bool) (k : NodeKey)
    (h : (nodes.map Prod.fst).filter p = [k]) :
    ∃ n, nodes.lookup k = some n ∧ resolve_half_key nodes p = Resolved.ok n := by
  obtain ⟨n, hn⟩ := lookup_isSome_of_filter_single nodes p k h
  exact ⟨n, hn, by simp [resolve_half_key, h, hn]⟩

/-- The multiple-match branch of the partial-key resolution. -/
theorem resolve_half_key_multi (nodes : NodeMap) (p : NodeKey → Bool)
    (h : 2 ≤ ((nodes.map Prod.fst).filter p).length) :
    resolve_half_key nodes p = Resolved.ambiguous ((nodes.map Prod.fst).filter p) := by
  rcases hl : (nodes.map Prod.fst).filter p with _ | ⟨k1, _ | ⟨k2, ks⟩⟩
  · rw [hl] at h; simp at h
  · rw [hl] at h; simp at h
  · simp [resolve_half_key, hl]

/-- C6: for every identifier form, `resolve_node_id` returns the unique
matching node when the candidate set is a singleton, raises `KeyError` when
it is empty, and for a partial key (address-only or name-only, including a
message resolved through its source address) with several candidates raises
`AmbiguousKeyError` carrying the full candidate set — never an arbitrary
candidate. -/
theorem resolve_node_id_spec (nodes : NodeMap) (nid : NodeId) :
    (candidates nodes nid = [] → resolve_node_id nodes nid = Resolved.keyError)
    ∧ (∀ k, candidates nodes nid = [k] →
        ∃ n, nodes.lookup k = some n ∧ resolve_node_id nodes nid = Resolved.ok n)
    ∧ (is_partial_key nid = true → 2 ≤ (candidates nodes nid).length →
        resolve_node_id nodes nid = Resolved.ambiguous (candidates nodes nid)) := by
  cases nid with
  | byAddr a =>
    exact ⟨resolve_half_key_nil nodes _, fun k => resolve_half_key_single nodes _ k,
      fun _ => resolve_half_key_multi nodes _⟩
  | byName s =>
    exact ⟨resolve_half_key_nil nodes _, fun k => resolve_half_key_single nodes _ k,
      fun _ => resolve_half_key_multi nodes _⟩
  | byMsg src =>
    exact ⟨resolve_half_key_nil nodes _, fun k => resolve_half_key_single nodes _ k,
      fun _ => resolve_half_key_multi nodes _⟩
  | byKey k =>
    refine ⟨?_, ?_, ?_⟩
    · intro h
      have hk : k ∉ nodes.map Prod.fst := by
        intro hmem
        have : k ∈ (nodes.map Prod.fst).filter (fun j => decide (j = k)) :=
          List.mem_filter.mpr ⟨hmem, by simp⟩
        rw [show (nodes.map Prod.fst).filter (fun j => decide (j = k))
            = candidates nodes (NodeId.byKey k) from rfl, h] at this
        cases this
      simp [resolve_node_id, lookup_eq_none_of_not_mem_keys nodes k hk]
    · intro k1 h
      have hk1 : k1 = k := by
        have : k1 ∈ (nodes.map Prod.fst).filter (fun j => decide (j = k)) := by
          rw [show (nodes.map Prod.fst).filter (fun j => decide (j = k))
              = candidates nodes (NodeId.byKey k) from rfl, h]
          exact List.mem_cons_self _ _
        simpa using (List.mem_filter.mp this).2
      subst hk1
      obtain ⟨n, hn⟩ := lookup_isSome_of_filter_single nodes _ k1 h
      exact ⟨n, hn, by simp [resolve_node_id, hn]⟩
    · intro h
      simp [is_partial_key] at h

/-- Witness for `resolve_node_id_spec`: a map with two nodes announcing the
same name, resolved by that ambiguous name. -/
theorem resolve_node_id_spec_witness :
    (candidates [((1, "x"), node_hb60), ((2, "x"), node_hb60)] (NodeId.byName "x") = [] →
      resolve_node_id [((1, "x"), node_hb60), ((2, "x"), node_hb60)] (NodeId.byName "x")
        = Resolved.keyError)
    ∧ (∀ k, candidates [((1, "x"), node_hb60), ((2, "x"), node_hb60)] (NodeId.byName "x") = [k] →
        ∃ n, List.lookup k [((1, "x"), node_hb60), ((2, "x"), node_hb60)] = some n ∧
          resolve_node_id [((1, "x"), node_hb60), ((2, "x"), node_hb60)] (NodeId.byName "x")
            = Resolved.ok n)
    ∧ (is_partial_key (NodeId.byName "x") = true →
        2 ≤ (candidates [((1, "x"), node_hb60), ((2, "x"), node_hb60)] (NodeId.byName "x")).length →
        resolve_node_id [((1, "x"), node_hb60), ((2, "x"), node_hb60)] (NodeId.byName "x")
          = Resolved.ambiguous
              (candidates [((1, "x"), node_hb60), ((2, "x"), node_hb60)] (NodeId.byName "x"))) :=
  resolve_node_id_spec [((1, "x"), node_hb60), ((2, "x"), node_hb60)] (NodeId.byName "x")

/-! ## C7 -/

/-- C7, counterexample to the claim as stated: a node exposing no `imc+udp`
endpoint does not make `send` fail with an error returned to the caller —
`IMCNode.send` logs an error and returns normally, sending nothing. -/
theorem node_send_noservice_counterexample :
    node_send [] false [] = Except.ok (SendResult.noService true)
    ∧ ∀ e : PyErr, node_send [] false [] ≠ Except.error e :=
  ⟨rfl, fun _ h => Except.noConfusion h⟩

/-- C7 (amended): when the node exposes no `imc+udp` endpoint, `send` logs
an error (exactly when the node is not fixed) and returns to the caller
without sending and without raising; otherwise, if some advertised endpoint
lies inside a configured local subnet, the message is sent to exactly one
such in-subnet endpoint; if no advertised endpoint is inside any local
subnet, the message is delivered to loopback on every advertised port. -/
theorem node_send_routing (services : List (String × List IMCService)) (is_fixed : Bool)
    (networks : List Subnet) :
    (services.lookup "imc+udp" = none →
      node_send services is_fixed networks = Except.ok (SendResult.noService (!is_fixed)))
    ∧ (∀ svcs, services.lookup "imc+udp" = some svcs →
        ((∃ s ∈ svcs, networks.any (fun nw => in_network s.ip nw) = true) →
          ∃ s ∈ svcs, networks.any (fun nw => in_network s.ip nw) = true ∧
            node_send services is_fixed networks
              = Except.ok (SendResult.sent [SendAction.sendTo s.ip s.port]))
        ∧ ((∀ s ∈ svcs, networks.any (fun nw => in_network s.ip nw) = false) →
          node_send services is_fixed networks
            = Except.ok (SendResult.sent (svcs.map (fun s => SendAction.sendTo loopback_ip s.port))))) := by
  refine ⟨fun h => by simp [node_send, h], fun svcs hs => ⟨?_, ?_⟩⟩
  · intro hex
    have hsome : (svcs.find? (fun svc => networks.any (fun nw => in_network svc.ip nw))).isSome := by
      rw [List.find?_isSome]
      obtain ⟨s, hmem, hnet⟩ := hex
      exact ⟨s, hmem, hnet⟩
    obtain ⟨svc, hfind⟩ := Option.isSome_iff_exists.mp hsome
    have hpsvc : networks.any (fun nw => in_network svc.ip nw) = true := by
      simpa using List.find?_some hfind
    exact ⟨svc, List.mem_of_find?_eq_some hfind, hpsvc,
      by simp [node_send, hs, hfind]⟩
  · intro hall
    have hnone : svcs.find? (fun svc => networks.any (fun nw => in_network svc.ip nw)) = none := by
      rw [List.find?_eq_none]
      intro s hmem
      simp [hall s hmem]
    simp [node_send, hs, hnone]

/-- Witness for `node_send_routing`: one endpoint inside the local
`10.0.0.0/24` subnet and one outside. -/
theorem node_send_routing_witness :
    (List.lookup "imc+udp" [("imc+udp", [IMCService.mk 0x0A000005 6002])] = none →
      node_send [("imc+udp", [IMCService.mk 0x0A000005 6002])] false [Subnet.mk 0x0A000000 24]
        = Except.ok (SendResult.noService (!false)))
    ∧ (∀ svcs, List.lookup "imc+udp" [("imc+udp", [IMCService.mk 0x0A000005 6002])] = some svcs →
        ((∃ s ∈ svcs, List.any [Subnet.mk 0x0A000000 24] (fun nw => in_network s.ip nw) = true) →
          ∃ s ∈ svcs, List.any [Subnet.mk 0x0A000000 24] (fun nw => in_network s.ip nw) = true ∧
            node_send [("imc+udp", [IMCService.mk 0x0A000005 6002])] false [Subnet.mk 0x0A000000 24]
              = Except.ok (SendResult.sent [SendAction.sendTo s.ip s.port]))
        ∧ ((∀ s ∈ svcs, List.any [Subnet.mk 0x0A000000 24] (fun nw => in_network s.ip nw) = false) →
          node_send [("imc+udp", [IMCService.mk 0x0A000005 6002])] false [Subnet.mk 0x0A000000 24]
            = Except.ok (SendResult.sent
                (svcs.map (fun s => SendAction.sendTo loopback_ip s.port))))) :=
  node_send_routing [("imc+udp", [IMCService.mk 0x0A000005 6002])] false [Subnet.mk 0x0A000000 24]

/-! ## C9 -/

/-- C9: a truncated `.lsf.gz` merge input does not get salvaged.  The
`except EOFError:` clause of `merge` evaluates `logger.warning(e)` before
switching to incremental decompression, and `e` is not a bound name there,
so the clause raises `NameError` and `merge` fails instead of retaining the
recovered records; an intact input is read normally. -/
theorem merge_gz_truncated_nameerror :
    merge_read_gz (GzStream.truncated [rec_a]) = Except.error (PyErr.nameError "e")
    ∧ merge_read_gz (GzStream.intact [rec_a]) = Except.ok [rec_a] :=
  ⟨rfl, rfl⟩

/-! ## C8 -/

/-- C8: over a well-formed log (every record with a valid sync number) and a
non-empty requested type set, the unindexed forward scan consumes every
record's header exactly once in file order; the records it decodes and
yields are exactly those whose type id is requested, in the file's original
relative order; and every event is either a yield of a requested record or
a decode-free skip of an unrequested one. -/
theorem read_message_noindex_spec (recs : List Record) (ts : List Nat)
    (_hne : ts ≠ []) (hsync : ∀ r ∈ recs, r.sync = SYNC) :
    ((read_message_noindex (some ts) recs).filterMap yielded_record
        = recs.filter (fun r => decide (r.mgid ∈ ts)))
    ∧ (read_message_noindex (some ts) recs).map event_record = recs
    ∧ (∀ ev ∈ read_message_noindex (some ts) recs,
        (∃ r, ev = ReadEvent.skipped r ∧ r.mgid ∉ ts)
        ∨ (∃ r, ev = ReadEvent.yielded r ∧ r.mgid ∈ ts)) := by
  clear _hne
  induction recs with
  | nil => exact ⟨rfl, rfl, by simp [read_message_noindex]⟩
  | cons r rs ih =>
    have hr : r.sync = SYNC := hsync r (List.mem_cons_self r rs)
    obtain ⟨ih1, ih2, ih3⟩ := ih (fun x hx => hsync x (List.mem_cons_of_mem r hx))
    by_cases hm : r.mgid ∈ ts
    · refine ⟨?_, ?_, ?_⟩
      · simp [read_message_noindex, hr, hm, yielded_record, ih1]
      · simp [read_message_noindex, hr, hm, event_record, ih2]
      · intro ev hev
        simp only [read_message_noindex, hr, hm, if_true, ite_not, if_pos,
          ne_eq, not_true_eq_false, if_false, List.mem_cons] at hev
        rcases hev with rfl | hev
        · exact Or.inr ⟨r, rfl, hm⟩
        · exact ih3 ev hev
    · refine ⟨?_, ?_, ?_⟩
      · simp [read_message_noindex, hr, hm, yielded_record, ih1]
      · simp [read_message_noindex, hr, hm, event_record, ih2]
      · intro ev hev
        simp only [read_message_noindex, hr, hm, ite_not, ne_eq, not_true_eq_false,
          if_false, List.mem_cons] at hev
        rcases hev with rfl | hev
        · exact Or.inl ⟨r, rfl, hm⟩
        · exact ih3 ev hev

/-- Witness for `read_message_noindex_spec`: an interleaving of records of
type 5 and type 7, requesting only type 5. -/
theorem read_message_noindex_spec_witness :
    ((read_message_noindex (some [5]) [rec_a, rec_b, rec_a]).filterMap yielded_record
        = List.filter (fun r => decide (r.mgid ∈ [5])) [rec_a, rec_b, rec_a])
    ∧ (read_message_noindex (some [5]) [rec_a, rec_b, rec_a]).map event_record
        = [rec_a, rec_b, rec_a]
    ∧ (∀ ev ∈ read_message_noindex (some [5]) [rec_a, rec_b, rec_a],
        (∃ r, ev = ReadEvent.skipped r ∧ r.mgid ∉ [5])
        ∨ (∃ r, ev = ReadEvent.yielded r ∧ r.mgid ∈ [5])) :=
  read_message_noindex_spec [rec_a, rec_b, rec_a] [5] (by decide) (by decide)

/-! ## C10 -/

/-- Every record occupies at least the header and footer bytes. -/
theorem record_len_pos (r : Record) : 0 < record_len r := by
  simp [record_len, header_size, footer_size]

/-- The offsets collected for any message type during the index scan are
strictly increasing, and all of them are at least the scan's start
offset. -/
theorem generate_index_chain (recs : List Record) (pos : Nat) (m : Nat) :
    List.Chain' (· < ·) (generate_index recs pos m)
    ∧ ∀ x ∈ generate_index recs pos m, pos ≤ x := by
  induction recs generalizing pos with
  | nil => exact ⟨List.chain'_nil, by simp [generate_index]⟩
  | cons r rs ih =>
    obtain ⟨ihc, ihb⟩ := ih (pos + record_len r)
    have hlen : 0 < record_len r := record_len_pos r
    by_cases hm : r.mgid = m
    · constructor
      · rw [generate_index, if_pos hm, List.singleton_append]
        refine List.chain'_cons'.mpr ⟨?_, ihc⟩
        intro y hy
        have hb := ihb y (List.mem_of_mem_head? hy)
        omega
      · intro x hx
        rw [generate_index, if_pos hm, List.singleton_append] at hx
        rcases List.mem_cons.mp hx with rfl | hx
        · exact le_rfl
        · have := ihb x hx; omega
    · constructor
      · rw [generate_index, if_neg hm, List.nil_append]
        exact ihc
      · intro x hx
        rw [generate_index, if_neg hm, List.nil_append] at hx
        have := ihb x hx
        omega

/-- A fold of ascending two-way merges of ascending lists is ascending. -/
theorem merge_foldr_sorted (ls : List (List Nat))
    (h : ∀ l ∈ ls, List.Sorted (· ≤ ·) l) :
    List.Sorted (· ≤ ·)
      (ls.foldr (fun l acc => List.merge l acc (fun a b => decide (a ≤ b))) []) := by
  induction ls with
  | nil => exact List.sorted_nil
  | cons l rest ih =>
    have h1 : List.Sorted (· ≤ ·) l := h l (List.mem_cons_self l rest)
    have h2 := ih (fun x hx => h x (List.mem_cons_of_mem l hx))
    exact h1.merge h2

/-- C10: after index construction, every per-type offset list is strictly
increasing, and the merged offset iterator over any requested type set
yields file offsets in ascending order. -/
theorem index_offsets_ascending (recs : List Record) (m : Nat) (types : List Nat) :
    List.Chain' (· < ·) (generate_index recs 0 m)
    ∧ List.Sorted (· ≤ ·) (sorted_idx_iter (generate_index recs 0) types) := by
  refine ⟨(generate_index_chain recs 0 m).1, ?_⟩
  rw [sorted_idx_iter]
  apply merge_foldr_sorted
  intro l hl
  obtain ⟨k, _, rfl⟩ := List.mem_map.mp hl
  have hchain := (generate_index_chain recs 0 k).1
  have hpair : List.Pairwise (· < ·) (generate_index recs 0 k) :=
    List.chain'_iff_pairwise.mp hchain
  exact hpair.imp le_of_lt

/-- Witness for `index_offsets_ascending`: the index of a three-record file
with interleaved types, merged over both types. -/
theorem index_offsets_ascending_witness :
    List.Chain' (· < ·) (generate_index [rec_a, rec_b, rec_a] 0 5)
    ∧ List.Sorted (· ≤ ·)
        (sorted_idx_iter (generate_index [rec_a, rec_b, rec_a] 0) [5, 7]) :=
  index_offsets_ascending [rec_a, rec_b, rec_a] 5 [5, 7]

end PyImc
